import Mathlib

/-!
Verification of the peridynamic bonded-neighbor topology manager
(`src/PERI/fix_peri_neigh.cpp`, class `FixPeriNeigh`).

Shallow embedding conventions:
* C `double` values are modelled as `ℚ` (exact arithmetic); the libm
  `sqrt` call is modelled as an abstract parameter `sqrtQ : ℚ → ℚ`
  carried in the build input, since no claim depends on its value.
* Per-particle arrays (`npartner[]`, `partner[][]`, `r0[][]`,
  `vinter[]`, `wvolume[]`) are modelled as lists indexed by local slot.
  A row `partner[i]` is represented by its meaningful data — the code
  only ever reads `partner[i][0..npartner[i])`; the raw array width
  `maxpartner` shows up as the bound `npartner[i] ≤ maxpartner`.
* Communication buffers of C `double` are `List ℚ`; `static_cast<int>`
  on a buffered value is `bufToInt` (C truncation toward zero).
* `error->one(FLERR, msg)` (whole-run abort) is `Except.error msg`.
* The `first` member (C `int` used as a 0/1 flag) is a `Bool`.
* `j &= NEIGHMASK` strips neighbor-list encoding bits from a candidate
  index; candidate indices are modelled already stripped.
-/

namespace FixPeriNeigh

/-- Position / displacement triple, the three components of `x[i]` or `x0[i]`. -/
abbrev Vec3 : Type := ℚ × ℚ × ℚ

/-- `rsq` as computed in `setup`: `delx*delx + dely*dely + delz*delz`
for `del* = a - b` componentwise. -/
def distSq (a b : Vec3) : ℚ :=
  (a.1 - b.1) * (a.1 - b.1) + (a.2.1 - b.2.1) * (a.2.1 - b.2.1) +
    (a.2.2 - b.2.2) * (a.2.2 - b.2.2)

/-- One particle of the external particle store: global `tag`,
current position `x`, reference position `x0`, material `type`,
volume fraction `vfrac`. -/
structure Particle where
  tag : Int
  x : Vec3
  x0 : Vec3
  type : Nat
  vfrac : ℚ

/-- Default particle used for out-of-range accesses (never reached under
the well-formedness hypotheses of the theorems below). -/
def pDefault : Particle := ⟨0, (0, 0, 0), (0, 0, 0), 0, 0⟩

/-- `particles[j]`. -/
def getP (ps : List Particle) (j : Nat) : Particle := ps.getD j pDefault

/-- The per-partition state owned by the fix: the `first` build-once flag,
the store-wide bound `maxpartner`, and the five per-particle arrays. -/
structure Store where
  first : Bool
  maxpartner : Nat
  npartner : List Nat
  partner : List (List Int)
  r0 : List (List ℚ)
  vinter : List ℚ
  wvolume : List ℚ

/-- `static_cast<int>` applied to a buffered `double`: truncation toward
zero, exact on the integral values the codecs store. -/
def bufToInt (q : ℚ) : Int := q.num.tdiv q.den

/-! ### MigrationCodec: `pack_exchange` / `unpack_exchange` -/

/-- The body of the `pack_exchange` loop over `n < npartner[i]`: each
non-tombstoned (`partner != 0`) slot contributes the pair
`(partner[i][n], r0[i][n])` to the buffer, in order. -/
def packBody : List (Int × ℚ) → List ℚ
  | [] => []
  | (t, r) :: rest => if t = 0 then packBody rest else (t : ℚ) :: (r : ℚ) :: packBody rest

/-- The `(tag, r0)` pairs of slot `i` that the per-`n < npartner[i]` loops
traverse. -/
def slotPairs (st : Store) (i : Nat) : List (Int × ℚ) :=
  ((st.partner.getD i []).take (st.npartner.getD i 0)).zip
    ((st.r0.getD i []).take (st.npartner.getD i 0))

/-- `FixPeriNeigh::pack_exchange`: compacts slot `i`'s bond list by
eliminating `partner = 0` entries, sets `buf[0] = m/2` after compaction
(`m` counts buffer words `1 + 2·(surviving bonds)`, integer division),
then appends `vinter[i]` and `wvolume[i]`.  The C function returns the
total word count `m`, which here is the length of the returned list. -/
def pack_exchange (st : Store) (i : Nat) : List ℚ :=
  let body := packBody (slotPairs st i)
  let m := 1 + body.length
  (((m / 2 : Nat) : ℚ) :: body) ++ [st.vinter.getD i 0, st.wvolume.getD i 0]

/-- The `unpack_exchange` read loop: consume `n` `(tag, r0)` pairs from the
buffer, returning the tags, the distances, and the remaining buffer. -/
def readPairs : Nat → List ℚ → List Int × List ℚ × List ℚ
  | 0, buf => ([], [], buf)
  | n + 1, buf =>
    let t := bufToInt (buf.headD 0)
    let r := (buf.drop 1).headD 0
    let rest := readPairs n (buf.drop 2)
    (t :: rest.1, r :: rest.2.1, rest.2.2)

/-- `FixPeriNeigh::unpack_exchange`: reads `npartner` from `buf[0]`, then
that many `(tag, r0)` pairs, then `vinter` and `wvolume`, writing them
into slot `idx`; returns the updated store and the word count consumed
(the C return value `m`). -/
def unpack_exchange (st : Store) (idx : Nat) (buf : List ℚ) : Store × Nat :=
  let np := (bufToInt (buf.headD 0)).toNat
  let rest := readPairs np (buf.drop 1)
  ({ st with
      npartner := st.npartner.set idx np
      partner := st.partner.set idx rest.1
      r0 := st.r0.set idx rest.2.1
      vinter := st.vinter.set idx (rest.2.2.headD 0)
      wvolume := st.wvolume.set idx ((rest.2.2.drop 1).headD 0) },
    1 + 2 * np + 2)

/-- Surviving pairs of the compaction: the non-tombstoned entries. -/
def livePairs (l : List (Int × ℚ)) : List (Int × ℚ) :=
  l.filter (fun p => p.1 ≠ 0)

/-- Concrete store used to witness the migration round trip: one particle
with three bond slots of which the middle one is tombstoned. -/
def stWitnessEx : Store :=
  { first := false, maxpartner := 3, npartner := [3], partner := [[5, 0, 7]],
    r0 := [[2, 3, 4]], vinter := [9], wvolume := [11] }

/-- Fresh destination store for the migration round-trip witness. -/
def freshWitnessEx : Store :=
  { first := false, maxpartner := 3, npartner := [0], partner := [[]],
    r0 := [[]], vinter := [0], wvolume := [0] }

/-! ### RestartCodec: global header and per-particle records -/

/-- The restart pair loop body (`for n < npartner[i]` without compaction):
writes the `(tag, r0)` pair of every slot, tombstoned or not. -/
def pairsBody : List (Int × ℚ) → List ℚ
  | [] => []
  | (t, r) :: rest => (t : ℚ) :: (r : ℚ) :: pairsBody rest

/-- `FixPeriNeigh::pack_restart`: the self-describing per-particle record
`[recordLength, npartner, (tag, r0) × npartner, vinter, wvolume]` with
`recordLength = 2 * npartner + 4` (the C return value `m`, which equals
the list length). -/
def pack_restart (st : Store) (i : Nat) : List ℚ :=
  (((2 * st.npartner.getD i 0 + 4 : Nat) : ℚ) ::
      ((st.npartner.getD i 0 : Nat) : ℚ) :: pairsBody (slotPairs st i)) ++
    [st.vinter.getD i 0, st.wvolume.getD i 0]

/-- The skip loop of `unpack_restart`: advance past `nth` leading records
using each record's leading length word. -/
def skipRecords : Nat → List ℚ → List ℚ
  | 0, row => row
  | n + 1, row => skipRecords n (row.drop (bufToInt (row.headD 0)).toNat)

/-- `FixPeriNeigh::unpack_restart`: skip the first `nth` records of the
particle's extra-data row, step past the record-length word, then read
`npartner`, the `(tag, r0)` pairs, `vinter` and `wvolume` into slot `idx`. -/
def unpack_restart (st : Store) (idx nth : Nat) (extraRow : List ℚ) : Store :=
  let row := (skipRecords nth extraRow).drop 1
  let np := (bufToInt (row.headD 0)).toNat
  let rest := readPairs np (row.drop 1)
  { st with
      npartner := st.npartner.set idx np
      partner := st.partner.set idx rest.1
      r0 := st.r0.set idx rest.2.1
      vinter := st.vinter.set idx (rest.2.2.headD 0)
      wvolume := st.wvolume.set idx ((rest.2.2.drop 1).headD 0) }

/-- `FixPeriNeigh::write_restart`: the two-word global header
`[first, maxpartner]` (the C code also prepends the byte size when
writing to the file; the stream modelled here is the `list[2]` payload). -/
def write_restart (st : Store) : List ℚ :=
  [if st.first then (1 : ℚ) else 0, (st.maxpartner : ℚ)]

/-- `FixPeriNeigh::restart`: read the built flag and `maxpartner` from the
header; the subsequent `grow_arrays(atom->nmax)` call re-allocates the
per-particle rows at width `maxpartner` before any record is read (row
content is untouched in the meaningful-prefix representation). -/
def restart (st : Store) (buf : List ℚ) : Store :=
  { st with
      first := bufToInt (buf.headD 0) != 0
      maxpartner := (bufToInt ((buf.drop 1).headD 0)).toNat }

/-- Serialize the whole store for `n` local particles: global header plus
one self-describing record per particle. -/
def serializeStore (st : Store) (n : Nat) : List ℚ × List (List ℚ) :=
  (write_restart st, (List.range n).map (fun i => pack_restart st i))

/-- The restore read loop: unpack record `m` into slot `k + m` for every
record, in order. -/
def restoreAll (recs : List (List ℚ)) (k : Nat) (s : Store) : Store :=
  match recs with
  | [] => s
  | rec :: rest => restoreAll rest (k + 1) (unpack_restart s k 0 rec)

/-- Deserialize into a fresh store: the global header is applied (flag,
bound, storage growth) before any per-particle record is read. -/
def deserializeStore (fresh : Store) (hdr : List ℚ) (recs : List (List ℚ)) : Store :=
  restoreAll recs 0 (restart fresh hdr)

/-- Concrete two-particle store used to witness the restart round trip;
slot 0 keeps a tombstoned bond (restart does not compact). -/
def stWitnessRs : Store :=
  { first := true, maxpartner := 2, npartner := [2, 1], partner := [[5, 0], [7]],
    r0 := [[2, 3], [4]], vinter := [9, 10], wvolume := [11, 12] }

/-- Fresh destination store for the restart round-trip witness. -/
def freshWitnessRs : Store :=
  { first := false, maxpartner := 1, npartner := [0, 0], partner := [[], []],
    r0 := [[], []], vinter := [0, 0], wvolume := [0, 0] }

/-! ### GhostSync: `pack_comm` / `unpack_comm` -/

/-- `FixPeriNeigh::pack_comm`: one buffer word per listed particle, namely
that particle's `wvolume`; the C function returns the per-atom comm size 1. -/
def pack_comm (st : Store) (lst : List Nat) : List ℚ × Nat :=
  (lst.map (fun j => st.wvolume.getD j 0), 1)

/-- `FixPeriNeigh::unpack_comm`: writes `buf[m++]` into `wvolume[i]` for
each `i` in `[firstIdx, firstIdx + n)` (the ghost slots start at
`firstIdx = atom->nlocal` in a forward exchange). -/
def unpack_comm (st : Store) (n firstIdx : Nat) (buf : List ℚ) : Store :=
  { st with
      wvolume := (List.range n).foldl
        (fun w k => w.set (firstIdx + k) (buf.getD k 0)) st.wvolume }

/-! ### HorizonBondBuilder: `setup` -/

/-- The active peridynamic pair style, selected in `setup` by
`dynamic_cast` against `PairPeriPMB` (uniform influence, weight 1.0) and
`PairPeriLPS` (whose `influence_function(delx0, dely0, delz0)` is an
externally supplied scalar weight). -/
inductive PairStyle where
  | pmb : PairStyle
  | lps (influence : ℚ → ℚ → ℚ → ℚ) : PairStyle

/-- Everything external that `FixPeriNeigh::setup` consumes: the particle
store (`atom->x`, `atom->x0`, `atom->type`, `atom->tag`, `atom->vfrac`),
`atom->nlocal`, the occasional full neighbor list (`ilist`/`firstneigh`
flattened to `(i, jlist)` pairs), the pair style's `cutsq` table, libm
`sqrt` as an abstract function, the `atom->map` tag-to-index lookup
(`none` models the C return value `-1` for a lost particle), the lattice
spacing `domain->lattice->xlattice`, the active pair style, and the
domain periodicity flags. -/
structure BuildInput where
  particles : List Particle
  nlocal : Nat
  neigh : List (Nat × List Nat)
  cutsq : Nat → Nat → ℚ
  sqrtQ : ℚ → ℚ
  mapTag : Int → Option Nat
  xlattice : ℚ
  style : PairStyle
  xperiodic : Bool
  yperiodic : Bool
  zperiodic : Bool

/-- The nested `for (ii) { for (jj) }` candidate scan, flattened to the
sequence of `(i, j)` candidate pairs it visits, in visit order. -/
def scanPairs : List (Nat × List Nat) → List (Nat × Nat)
  | [] => []
  | (i, jl) :: rest => jl.map (fun j => (i, j)) ++ scanPairs rest

/-- The bond test of both passes: `rsq <= cutsq[itype][jtype]` (inclusive). -/
def bondQualifies (inp : BuildInput) (i j : Nat) : Prop :=
  distSq (getP inp.particles i).x (getP inp.particles j).x ≤
    inp.cutsq (getP inp.particles i).type (getP inp.particles j).type

instance (inp : BuildInput) (i j : Nat) : Decidable (bondQualifies inp i j) :=
  inferInstanceAs (Decidable (distSq (getP inp.particles i).x (getP inp.particles j).x ≤
    inp.cutsq (getP inp.particles i).type (getP inp.particles j).type))

/-- One step of the sizing pass: `if (rsq <= cutsq[itype][jtype]) npartner[i]++`. -/
def sizingStep (inp : BuildInput) (c : List Nat) : Nat × Nat → List Nat
  | (i, j) => if bondQualifies inp i j then c.set i (c.getD i 0 + 1) else c

/-- The sizing pass, starting from counts `c0` (the pre-setup `npartner`
values, zeroed by the constructor). -/
def sizingFrom (inp : BuildInput) (c0 : List Nat) : List Nat :=
  (scanPairs inp.neigh).foldl (sizingStep inp) c0

/-- The per-partition sized counts as read by the `maxpartner` loop over
`i < nlocal`. -/
def localSized (inp : BuildInput) (st : Store) : List Nat :=
  sizingFrom inp (st.npartner.take inp.nlocal)

/-- `maxpartner = MAX(maxpartner, npartner[i])` over local particles,
starting from 0: the partition's contribution to the all-reduce. -/
def localMax (inp : BuildInput) (st : Store) : Nat :=
  (localSized inp st).foldl max 0

/-- The `MPI_Allreduce(..., MPI_MAX, ...)` of the per-partition maxima. -/
def globalMax (prs : List (BuildInput × Store)) : Nat :=
  (prs.map (fun pr => localMax pr.1 pr.2)).foldl max 0

/-- One step of the population pass: on a qualifying pair, append
`tag[j]` and `r0 = sqrt(rsq)` at position `npartner[i]` of slot `i`'s
rows, then increment `npartner[i]` and accumulate `vinter[i] += vfrac[j]`. -/
def popStep (inp : BuildInput) (st : Store) : Nat × Nat → Store
  | (i, j) =>
    if bondQualifies inp i j then
      { st with
          partner := st.partner.set i
            (st.partner.getD i [] ++ [(getP inp.particles j).tag])
          r0 := st.r0.set i (st.r0.getD i [] ++
            [inp.sqrtQ (distSq (getP inp.particles i).x (getP inp.particles j).x)])
          npartner := st.npartner.set i (st.npartner.getD i 0 + 1)
          vinter := st.vinter.set i (st.vinter.getD i 0 + (getP inp.particles j).vfrac) }
    else st

/-- The store right after the realloc between the passes: `first` already
cleared, `maxpartner` set to the all-reduced bound, rows re-allocated and
`npartner`, `vinter`, `wvolume` zeroed for every local particle. -/
def popInit (inp : BuildInput) (maxall : Nat) : Store :=
  { first := false
    maxpartner := maxall
    npartner := List.replicate inp.nlocal 0
    partner := List.replicate inp.nlocal []
    r0 := List.replicate inp.nlocal []
    vinter := List.replicate inp.nlocal 0
    wvolume := List.replicate inp.nlocal 0 }

/-- The population pass: rescan the candidate pairs from the zeroed store. -/
def populate (inp : BuildInput) (maxall : Nat) : Store :=
  (scanPairs inp.neigh).foldl (popStep inp) (popInit inp maxall)

/-- Diagnostic of `error->one` in the duplicate check. -/
def dupErrMsg : String :=
  "Duplicate particle in PeriDynamic bond - simulation box is too small"

/-- The inner pair loops of the sanity check: does any later slot hold the
same partner tag as an earlier one? -/
def hasDupRow : List Int → Bool
  | [] => false
  | a :: l => l.any (fun b => b = a) || hasDupRow l

/-- The post-build sanity check: only when some axis is periodic, compare
every pair of bond-partner tags of every local particle and abort with
`dupErrMsg` when two slots coincide. -/
def checkDuplicates (inp : BuildInput) (st : Store) : Except String Unit :=
  if inp.xperiodic || inp.yperiodic || inp.zperiodic then
    if (List.range inp.nlocal).any
        (fun i => hasDupRow ((st.partner.getD i []).take (st.npartner.getD i 0))) then
      Except.error dupErrMsg
    else Except.ok ()
  else Except.ok ()

/-! ### VolumeAccumulator -/

/-- The horizon-proximity weight (`vfrac_scale` in `setup`): when the
bond's original length is within `half_lc` of the horizon `delta`, a
linear blend `(-1/(2*half_lc))*r0 + (1 + (delta - half_lc)/(2*half_lc))`,
otherwise 1.0. -/
def vfrac_scale (r0v delta half_lc : ℚ) : ℚ :=
  if |r0v - delta| ≤ half_lc then
    (-1 / (2 * half_lc)) * r0v + (1 + (delta - half_lc) / (2 * half_lc))
  else 1

/-- One bond slot's contribution to `wvolume[i]`: zero when the bond is
tombstoned (`partner == 0`) or the partner tag cannot be resolved
(`atom->map` returns a negative index, modelled `none`); otherwise
`influence * rsq0 * vfrac[j] * vfrac_scale` with `delta` the horizon
`sqrt(cutsq[itype][jtype])` and `half_lc = 0.5 * xlattice`. -/
def wvolContrib (inp : BuildInput) (x0i : Vec3) (itype : Nat) (t : Int) (rr : ℚ) : ℚ :=
  if t = 0 then 0
  else
    match inp.mapTag t with
    | none => 0
    | some j =>
      let pj := getP inp.particles j
      let delx0 := x0i.1 - pj.x0.1
      let dely0 := x0i.2.1 - pj.x0.2.1
      let delz0 := x0i.2.2 - pj.x0.2.2
      let rsq0 := delx0 * delx0 + dely0 * dely0 + delz0 * delz0
      let delta := inp.sqrtQ (inp.cutsq itype pj.type)
      let half_lc := (1 / 2 : ℚ) * inp.xlattice
      let scale := vfrac_scale rr delta half_lc
      match inp.style with
      | PairStyle.pmb => 1 * rsq0 * pj.vfrac * scale
      | PairStyle.lps f => f delx0 dely0 delz0 * rsq0 * pj.vfrac * scale

/-- The partner loop of the weighted-volume computation for one particle:
accumulate every slot's contribution onto `acc` (the zeroed `wvolume[i]`). -/
def wvolumeRow (inp : BuildInput) (x0i : Vec3) (itype : Nat)
    (pairs : List (Int × ℚ)) (acc : ℚ) : ℚ :=
  pairs.foldl (fun a p => a + wvolContrib inp x0i itype p.1 p.2) acc

/-- The whole weighted-volume pass: for every local particle `i`,
`wvolume[i] +=` the contributions of its bond slots; every other
per-particle array is untouched. -/
def computeWvolumeStore (inp : BuildInput) (st : Store) : Store :=
  { st with
      wvolume := (List.range inp.nlocal).map (fun i =>
        wvolumeRow inp (getP inp.particles i).x0 (getP inp.particles i).type
          (slotPairs st i) (st.wvolume.getD i 0)) }

/-- `FixPeriNeigh::setup`, one partition: a no-op unless the build-once
flag `first` is still set; otherwise run the two-pass build with the
all-reduced bound `maxall` (the sizing pass's surviving effect is exactly
its `localMax` contribution to that collective value), run the duplicate
check (which aborts the run on failure), then the weighted-volume pass.
The closing `forward_comm_fix` refreshes ghost copies on other partitions
and leaves this partition's local state unchanged; the bond-statistics
printout is presentation only. -/
def setupPartition (inp : BuildInput) (maxall : Nat) (st : Store) : Except String Store :=
  if st.first = false then Except.ok st
  else
    match checkDuplicates inp (populate inp maxall) with
    | Except.error e => Except.error e
    | Except.ok _ => Except.ok (computeWvolumeStore inp (populate inp maxall))

/-- All partitions run `setup` with the same all-reduced `maxpartner`. -/
def setupAll (prs : List (BuildInput × Store)) : Except String (List Store) :=
  prs.mapM (fun pr => setupPartition pr.1 (globalMax prs) pr.2)

/-- A partition's maximum per-particle bond count. -/
def maxDegree (s : Store) : Nat := s.npartner.foldl max 0

/-- Concrete build input: two like-type particles one unit apart, cutoff
squared 4, uniform (PMB) influence, no periodicity, identity in place of
`sqrt` (no claim depends on its value). -/
def inpW : BuildInput :=
  { particles := [⟨1, (0, 0, 0), (0, 0, 0), 1, 1⟩, ⟨2, (1, 0, 0), (1, 0, 0), 1, 1⟩]
    nlocal := 2
    neigh := [(0, [1]), (1, [0])]
    cutsq := fun _ _ => 4
    sqrtQ := fun q => q
    mapTag := fun t => if t = 1 then some 0 else if t = 2 then some 1 else none
    xlattice := 1
    style := PairStyle.pmb
    xperiodic := false
    yperiodic := false
    zperiodic := false }

/-- Pre-setup store for the build witnesses: flag set, counts zeroed. -/
def stW0 : Store :=
  { first := true, maxpartner := 1, npartner := [0, 0], partner := [[], []],
    r0 := [[], []], vinter := [0, 0], wvolume := [0, 0] }

/-- The store `setupPartition inpW 1 stW0` produces. -/
def stWBuilt : Store :=
  { first := false, maxpartner := 1, npartner := [1, 1], partner := [[2], [1]],
    r0 := [[1], [1]], vinter := [1, 1], wvolume := [1, 1] }

/-- Variant of the concrete build input whose neighbor list is empty (the
candidate search returned no pairs). -/
def inpE : BuildInput :=
  { inpW with neigh := [] }

/-- The store the full build produces from `stW0` under `inpE`: no bonds,
and the all-reduced bound resolves to 0. -/
def stEBuilt : Store :=
  { first := false, maxpartner := 0, npartner := [0, 0], partner := [[], []],
    r0 := [[], []], vinter := [0, 0], wvolume := [0, 0] }

/-- Concrete build input whose lone candidate pair sits exactly on the
cutoff boundary: distance 2, cutoff squared 4. -/
def inpW3 : BuildInput :=
  { particles := [⟨1, (0, 0, 0), (0, 0, 0), 1, 1⟩, ⟨2, (2, 0, 0), (2, 0, 0), 1, 1⟩]
    nlocal := 2
    neigh := [(0, [1]), (1, [0])]
    cutsq := fun _ _ => 4
    sqrtQ := fun q => q
    mapTag := fun t => if t = 1 then some 0 else if t = 2 then some 1 else none
    xlattice := 1
    style := PairStyle.pmb
    xperiodic := false
    yperiodic := false
    zperiodic := false }

/-- Periodic variant of the concrete build input, one local particle. -/
def inpPer : BuildInput :=
  { inpW with xperiodic := true, nlocal := 1 }

/-- A store whose single local particle holds the same partner tag twice. -/
def stDup : Store :=
  { first := false, maxpartner := 2, npartner := [2], partner := [[5, 5]],
    r0 := [[1, 1]], vinter := [0], wvolume := [0] }

theorem bufToInt_intCast (n : Int) : bufToInt (n : ℚ) = n := by
  simp [bufToInt, Rat.num_intCast, Rat.den_intCast]

theorem bufToInt_natCast (n : Nat) : bufToInt (n : ℚ) = n := by
  have h : ((n : Int) : ℚ) = (n : ℚ) := by push_cast; ring
  rw [← h, bufToInt_intCast]

theorem packBody_length (l : List (Int × ℚ)) :
    (packBody l).length = 2 * (livePairs l).length := by
  induction l with
  | nil => rfl
  | cons p rest ih =>
    obtain ⟨t, r⟩ := p
    by_cases h : t = 0
    · have hb : packBody ((t, r) :: rest) = packBody rest := by
        rw [packBody, if_pos h]
      have hl : livePairs ((t, r) :: rest) = livePairs rest := by
        simp [livePairs, List.filter_cons, h]
      rw [hb, hl, ih]
    · have hb : packBody ((t, r) :: rest) = (t : ℚ) :: (r : ℚ) :: packBody rest := by
        rw [packBody, if_neg h]
      have hl : livePairs ((t, r) :: rest) = (t, r) :: livePairs rest := by
        simp [livePairs, List.filter_cons, h]
      rw [hb, hl, List.length_cons, List.length_cons, List.length_cons, ih,
        Nat.mul_add, Nat.mul_one]

theorem readPairs_packBody (l : List (Int × ℚ)) (tail : List ℚ) :
    readPairs (livePairs l).length (packBody l ++ tail) =
      ((livePairs l).map Prod.fst, ((livePairs l).map Prod.snd, tail)) := by
  induction l with
  | nil => simp [livePairs, packBody, readPairs]
  | cons p rest ih =>
    obtain ⟨t, r⟩ := p
    by_cases h : t = 0
    · simpa [livePairs, packBody, h, List.filter_cons] using ih
    · have hl : livePairs ((t, r) :: rest) = (t, r) :: livePairs rest := by
        simp [livePairs, List.filter_cons, h]
      have hb : packBody ((t, r) :: rest) = (t : ℚ) :: (r : ℚ) :: packBody rest := by
        simp [packBody, h]
      rw [hl, hb]
      simp only [List.length_cons, List.cons_append, readPairs, List.headD_cons,
        List.drop_succ_cons, List.drop_zero]
      simp [ih, bufToInt_intCast]

theorem getD_set_self {α : Type} :
    ∀ (l : List α) (i : Nat) (a d : α), i < l.length → (l.set i a).getD i d = a
  | [], _, _, _, h => absurd h (by simp)
  | _ :: _, 0, _, _, _ => rfl
  | _ :: xs, n + 1, a, d, h => getD_set_self xs n a d (by simpa using h)

theorem getD_set_ne {α : Type} :
    ∀ (l : List α) (i j : Nat) (a d : α), i ≠ j → (l.set i a).getD j d = l.getD j d
  | [], _, _, _, _, _ => rfl
  | _ :: _, 0, 0, _, _, hne => absurd rfl hne
  | _ :: _, 0, _ + 1, _, _, _ => rfl
  | _ :: _, _ + 1, 0, _, _, _ => rfl
  | _ :: xs, n + 1, m + 1, a, d, hne =>
    getD_set_ne xs n m a d (fun hh => hne (by omega))

/-- Claim C2: for every particle slot `i` with `npartner[i] ≤ maxpartner`,
packing `i`'s bonded state with `pack_exchange` and immediately unpacking
the record into a fresh slot reproduces exactly the non-tombstoned
`(tag, r0)` pairs in their original relative order, plus `vinter` and
`wvolume`, with all tombstoned (`tag == 0`) entries removed; the number of
buffer words consumed by unpack equals the number written by pack. -/
theorem migration_pack_unpack_roundtrip (st fresh : Store) (i idx : Nat)
    (hnp : st.npartner.getD i 0 ≤ st.maxpartner)
    (h1 : idx < fresh.npartner.length) (h2 : idx < fresh.partner.length)
    (h3 : idx < fresh.r0.length) (h4 : idx < fresh.vinter.length)
    (h5 : idx < fresh.wvolume.length) :
    (unpack_exchange fresh idx (pack_exchange st i)).1.partner.getD idx [] =
        (livePairs (slotPairs st i)).map Prod.fst ∧
      (unpack_exchange fresh idx (pack_exchange st i)).1.r0.getD idx [] =
        (livePairs (slotPairs st i)).map Prod.snd ∧
      (unpack_exchange fresh idx (pack_exchange st i)).1.npartner.getD idx 0 =
        (livePairs (slotPairs st i)).length ∧
      (unpack_exchange fresh idx (pack_exchange st i)).1.vinter.getD idx 0 =
        st.vinter.getD i 0 ∧
      (unpack_exchange fresh idx (pack_exchange st i)).1.wvolume.getD idx 0 =
        st.wvolume.getD i 0 ∧
      (unpack_exchange fresh idx (pack_exchange st i)).2 =
        (pack_exchange st i).length := by
  have hdiv : (1 + 2 * (livePairs (slotPairs st i)).length) / 2 =
      (livePairs (slotPairs st i)).length := by
    rw [Nat.add_mul_div_left _ _ (by norm_num : 0 < 2)]
    exact Nat.zero_add _
  have hcount : (pack_exchange st i).headD 0 =
      (((livePairs (slotPairs st i)).length : Nat) : ℚ) := by
    simp only [pack_exchange, List.cons_append, List.headD_cons,
      packBody_length (slotPairs st i), hdiv]
  have hdrop : (pack_exchange st i).drop 1 =
      packBody (slotPairs st i) ++ [st.vinter.getD i 0, st.wvolume.getD i 0] := by
    simp [pack_exchange]
  have hread := readPairs_packBody (slotPairs st i)
      [st.vinter.getD i 0, st.wvolume.getD i 0]
  have hnpv : (bufToInt ((pack_exchange st i).headD 0)).toNat =
      (livePairs (slotPairs st i)).length := by
    rw [hcount, bufToInt_natCast]; simp
  refine ⟨?_, ?_, ?_, ?_, ?_, ?_⟩
  · simp only [unpack_exchange, hnpv, hdrop, hread]
    exact getD_set_self _ _ _ _ h2
  · simp only [unpack_exchange, hnpv, hdrop, hread]
    exact getD_set_self _ _ _ _ h3
  · simp only [unpack_exchange, hnpv, hdrop, hread]
    exact getD_set_self _ _ _ _ h1
  · simp only [unpack_exchange, hnpv, hdrop, hread]
    simpa using getD_set_self _ _ _ _ h4
  · simp only [unpack_exchange, hnpv, hdrop, hread]
    simpa using getD_set_self _ _ _ _ h5
  · have hlen : (pack_exchange st i).length =
        1 + 2 * (livePairs (slotPairs st i)).length + 2 := by
      simp only [pack_exchange, List.cons_append, List.length_cons, List.length_append,
        List.length_nil, packBody_length (slotPairs st i)]
      omega
    simp only [unpack_exchange, hnpv, hlen]

/-- Witness for claim C2 at a concrete store with a tombstoned middle slot. -/
theorem migration_pack_unpack_roundtrip_witness :
    (unpack_exchange freshWitnessEx 0 (pack_exchange stWitnessEx 0)).1.partner.getD 0 [] =
        (livePairs (slotPairs stWitnessEx 0)).map Prod.fst ∧
      (unpack_exchange freshWitnessEx 0 (pack_exchange stWitnessEx 0)).1.r0.getD 0 [] =
        (livePairs (slotPairs stWitnessEx 0)).map Prod.snd ∧
      (unpack_exchange freshWitnessEx 0 (pack_exchange stWitnessEx 0)).1.npartner.getD 0 0 =
        (livePairs (slotPairs stWitnessEx 0)).length ∧
      (unpack_exchange freshWitnessEx 0 (pack_exchange stWitnessEx 0)).1.vinter.getD 0 0 =
        stWitnessEx.vinter.getD 0 0 ∧
      (unpack_exchange freshWitnessEx 0 (pack_exchange stWitnessEx 0)).1.wvolume.getD 0 0 =
        stWitnessEx.wvolume.getD 0 0 ∧
      (unpack_exchange freshWitnessEx 0 (pack_exchange stWitnessEx 0)).2 =
        (pack_exchange stWitnessEx 0).length :=
  migration_pack_unpack_roundtrip stWitnessEx freshWitnessEx 0 0 (by decide)
    (by decide) (by decide) (by decide) (by decide) (by decide)

theorem readPairs_pairsBody (l : List (Int × ℚ)) (tail : List ℚ) :
    readPairs l.length (pairsBody l ++ tail) =
      (l.map Prod.fst, (l.map Prod.snd, tail)) := by
  induction l with
  | nil => simp [pairsBody, readPairs]
  | cons p rest ih =>
    obtain ⟨t, r⟩ := p
    simp only [pairsBody, List.length_cons, List.cons_append, readPairs,
      List.headD_cons, List.drop_succ_cons, List.drop_zero]
    simp [ih, bufToInt_intCast]

theorem unpack_restart_fields (s : Store) (k : Nat) (rec : List ℚ) :
    (unpack_restart s k 0 rec).first = s.first ∧
      (unpack_restart s k 0 rec).maxpartner = s.maxpartner ∧
      (unpack_restart s k 0 rec).npartner.length = s.npartner.length ∧
      (unpack_restart s k 0 rec).partner.length = s.partner.length ∧
      (unpack_restart s k 0 rec).r0.length = s.r0.length ∧
      (unpack_restart s k 0 rec).vinter.length = s.vinter.length ∧
      (unpack_restart s k 0 rec).wvolume.length = s.wvolume.length :=
  ⟨rfl, rfl, by apply List.length_set, by apply List.length_set,
    by apply List.length_set, by apply List.length_set, by apply List.length_set⟩

theorem restoreAll_header (recs : List (List ℚ)) :
    ∀ (k : Nat) (s : Store), (restoreAll recs k s).first = s.first ∧
      (restoreAll recs k s).maxpartner = s.maxpartner := by
  induction recs with
  | nil => intro k s; simp [restoreAll]
  | cons rec rest ih =>
    intro k s
    exact ih (k + 1) (unpack_restart s k 0 rec)

theorem restoreAll_getD_lt (recs : List (List ℚ)) :
    ∀ (k : Nat) (s : Store) (i : Nat), i < k →
      (restoreAll recs k s).npartner.getD i 0 = s.npartner.getD i 0 ∧
      (restoreAll recs k s).partner.getD i [] = s.partner.getD i [] ∧
      (restoreAll recs k s).r0.getD i [] = s.r0.getD i [] ∧
      (restoreAll recs k s).vinter.getD i 0 = s.vinter.getD i 0 ∧
      (restoreAll recs k s).wvolume.getD i 0 = s.wvolume.getD i 0 := by
  induction recs with
  | nil => intro k s i _; simp [restoreAll]
  | cons rec rest ih =>
    intro k s i hik
    have h := ih (k + 1) (unpack_restart s k 0 rec) i (Nat.lt_succ_of_lt hik)
    have hne : k ≠ i := Nat.ne_of_gt hik
    have hs1 : (unpack_restart s k 0 rec).npartner.getD i 0 = s.npartner.getD i 0 := by
      rw [unpack_restart]; exact getD_set_ne _ k i _ _ hne
    have hs2 : (unpack_restart s k 0 rec).partner.getD i [] = s.partner.getD i [] := by
      rw [unpack_restart]; exact getD_set_ne _ k i _ _ hne
    have hs3 : (unpack_restart s k 0 rec).r0.getD i [] = s.r0.getD i [] := by
      rw [unpack_restart]; exact getD_set_ne _ k i _ _ hne
    have hs4 : (unpack_restart s k 0 rec).vinter.getD i 0 = s.vinter.getD i 0 := by
      rw [unpack_restart]; exact getD_set_ne _ k i _ _ hne
    have hs5 : (unpack_restart s k 0 rec).wvolume.getD i 0 = s.wvolume.getD i 0 := by
      rw [unpack_restart]; exact getD_set_ne _ k i _ _ hne
    rw [restoreAll]
    exact ⟨h.1.trans hs1, h.2.1.trans hs2, h.2.2.1.trans hs3,
      h.2.2.2.1.trans hs4, h.2.2.2.2.trans hs5⟩

theorem unpack_restart_pack (st s : Store) (i k : Nat)
    (hp : (st.partner.getD i []).length = st.npartner.getD i 0)
    (hr : (st.r0.getD i []).length = st.npartner.getD i 0)
    (h1 : k < s.npartner.length) (h2 : k < s.partner.length)
    (h3 : k < s.r0.length) (h4 : k < s.vinter.length) (h5 : k < s.wvolume.length) :
    (unpack_restart s k 0 (pack_restart st i)).npartner.getD k 0 = st.npartner.getD i 0 ∧
      (unpack_restart s k 0 (pack_restart st i)).partner.getD k [] = st.partner.getD i [] ∧
      (unpack_restart s k 0 (pack_restart st i)).r0.getD k [] = st.r0.getD i [] ∧
      (unpack_restart s k 0 (pack_restart st i)).vinter.getD k 0 = st.vinter.getD i 0 ∧
      (unpack_restart s k 0 (pack_restart st i)).wvolume.getD k 0 = st.wvolume.getD i 0 := by
  have htake_p : (st.partner.getD i []).take (st.npartner.getD i 0) = st.partner.getD i [] := by
    rw [← hp]; exact List.take_length _
  have htake_r : (st.r0.getD i []).take (st.npartner.getD i 0) = st.r0.getD i [] := by
    rw [← hr]; exact List.take_length _
  have hlen : (slotPairs st i).length = st.npartner.getD i 0 := by
    rw [slotPairs, htake_p, htake_r, List.length_zip, hp, hr, Nat.min_self]
  have hfst : (slotPairs st i).map Prod.fst = st.partner.getD i [] := by
    rw [slotPairs, htake_p, htake_r]
    exact List.map_fst_zip _ _ (le_of_eq (hp.trans hr.symm))
  have hsnd : (slotPairs st i).map Prod.snd = st.r0.getD i [] := by
    rw [slotPairs, htake_p, htake_r]
    exact List.map_snd_zip _ _ (le_of_eq (hr.trans hp.symm))
  have hrow : (skipRecords 0 (pack_restart st i)).drop 1 =
      (((st.npartner.getD i 0 : Nat) : ℚ) :: pairsBody (slotPairs st i)) ++
        [st.vinter.getD i 0, st.wvolume.getD i 0] := by
    simp [skipRecords, pack_restart]
  have hnp : (bufToInt (((skipRecords 0 (pack_restart st i)).drop 1).headD 0)).toNat =
      st.npartner.getD i 0 := by
    rw [hrow]
    simp [bufToInt_natCast]
  have hread : readPairs (st.npartner.getD i 0)
      (((skipRecords 0 (pack_restart st i)).drop 1).drop 1) =
      (st.partner.getD i [], (st.r0.getD i [], [st.vinter.getD i 0, st.wvolume.getD i 0])) := by
    rw [hrow]
    have := readPairs_pairsBody (slotPairs st i) [st.vinter.getD i 0, st.wvolume.getD i 0]
    rw [hlen] at this
    simpa [hfst, hsnd] using this
  refine ⟨?_, ?_, ?_, ?_, ?_⟩ <;>
    · rw [unpack_restart]
      simp only [hnp, hread]
      first
        | exact getD_set_self _ _ _ _ h1
        | exact getD_set_self _ _ _ _ h2
        | exact getD_set_self _ _ _ _ h3
        | simpa using getD_set_self _ _ _ _ h4
        | simpa using getD_set_self _ _ _ _ h5

theorem restoreAll_pack (st : Store) :
    ∀ (L : List Nat) (k : Nat) (s : Store),
      (∀ i ∈ L, (st.partner.getD i []).length = st.npartner.getD i 0 ∧
          (st.r0.getD i []).length = st.npartner.getD i 0) →
      k + L.length ≤ s.npartner.length → k + L.length ≤ s.partner.length →
      k + L.length ≤ s.r0.length → k + L.length ≤ s.vinter.length →
      k + L.length ≤ s.wvolume.length →
      ∀ m, m < L.length →
        (restoreAll (L.map (pack_restart st)) k s).npartner.getD (k + m) 0 =
            st.npartner.getD (L.getD m 0) 0 ∧
          (restoreAll (L.map (pack_restart st)) k s).partner.getD (k + m) [] =
            st.partner.getD (L.getD m 0) [] ∧
          (restoreAll (L.map (pack_restart st)) k s).r0.getD (k + m) [] =
            st.r0.getD (L.getD m 0) [] ∧
          (restoreAll (L.map (pack_restart st)) k s).vinter.getD (k + m) 0 =
            st.vinter.getD (L.getD m 0) 0 ∧
          (restoreAll (L.map (pack_restart st)) k s).wvolume.getD (k + m) 0 =
            st.wvolume.getD (L.getD m 0) 0 := by
  intro L
  induction L with
  | nil => intro k s _ _ _ _ _ _ m hm; exact absurd hm (by simp)
  | cons j L' ih =>
    intro k s hwf hn1 hn2 hn3 hn4 hn5 m hm
    have hlen := unpack_restart_fields s k (pack_restart st j)
    have hj := hwf j (List.mem_cons_self j L')
    rw [List.length_cons] at hn1 hn2 hn3 hn4 hn5 hm
    simp only [List.map_cons, restoreAll]
    cases m with
    | zero =>
      have hone := unpack_restart_pack st s j k hj.1 hj.2
        (Nat.lt_of_lt_of_le (lt_add_of_pos_right k (Nat.succ_pos L'.length)) hn1)
        (Nat.lt_of_lt_of_le (lt_add_of_pos_right k (Nat.succ_pos L'.length)) hn2)
        (Nat.lt_of_lt_of_le (lt_add_of_pos_right k (Nat.succ_pos L'.length)) hn3)
        (Nat.lt_of_lt_of_le (lt_add_of_pos_right k (Nat.succ_pos L'.length)) hn4)
        (Nat.lt_of_lt_of_le (lt_add_of_pos_right k (Nat.succ_pos L'.length)) hn5)
      have huntouched := restoreAll_getD_lt (L'.map (pack_restart st)) (k + 1)
        (unpack_restart s k 0 (pack_restart st j)) k (Nat.lt_succ_self k)
      exact ⟨huntouched.1.trans hone.1, huntouched.2.1.trans hone.2.1,
        huntouched.2.2.1.trans hone.2.2.1, huntouched.2.2.2.1.trans hone.2.2.2.1,
        huntouched.2.2.2.2.trans hone.2.2.2.2⟩
    | succ m' =>
      have hrec := ih (k + 1) (unpack_restart s k 0 (pack_restart st j))
        (fun i hi => hwf i (List.mem_cons_of_mem j hi))
        (by rw [hlen.2.2.1, Nat.add_right_comm]; exact hn1)
        (by rw [hlen.2.2.2.1, Nat.add_right_comm]; exact hn2)
        (by rw [hlen.2.2.2.2.1, Nat.add_right_comm]; exact hn3)
        (by rw [hlen.2.2.2.2.2.1, Nat.add_right_comm]; exact hn4)
        (by rw [hlen.2.2.2.2.2.2, Nat.add_right_comm]; exact hn5)
        m' (Nat.lt_of_succ_lt_succ hm)
      have hidx : k + (m' + 1) = (k + 1) + m' := Nat.add_right_comm k m' 1
      rw [hidx]
      exact hrec

theorem getD_range (n m : Nat) (hm : m < n) : (List.range n).getD m 0 = m := by
  simp [List.getD, List.getElem?_range hm]

theorem pairsBody_length (l : List (Int × ℚ)) :
    (pairsBody l).length = 2 * l.length := by
  induction l with
  | nil => simp [pairsBody]
  | cons p rest ih =>
    obtain ⟨t, r⟩ := p
    simp [pairsBody, ih]
    ring

/-- Claim C5: serializing the store with the restart codec (global header
holding the built flag and `maxpartner`, then per-particle records
`[recordLength, npartner, (tag, r0) × npartner, vinter, wvolume]` with
`recordLength = 2 * npartner + 4`) and deserializing into a fresh store
reproduces identical per-particle bond state for every particle, including
the `maxpartner` bound and the built flag, with storage grown to the
restored `maxpartner` (the header is applied by `restart` before any
record is read by `restoreAll`). -/
theorem restart_serialize_roundtrip (st fresh : Store) (n : Nat)
    (hwf : ∀ i, i < n → (st.partner.getD i []).length = st.npartner.getD i 0 ∧
        (st.r0.getD i []).length = st.npartner.getD i 0)
    (hl1 : n ≤ fresh.npartner.length) (hl2 : n ≤ fresh.partner.length)
    (hl3 : n ≤ fresh.r0.length) (hl4 : n ≤ fresh.vinter.length)
    (hl5 : n ≤ fresh.wvolume.length) :
    (∀ i, i < n → (pack_restart st i).headD 0 =
          ((2 * st.npartner.getD i 0 + 4 : Nat) : ℚ) ∧
        (pack_restart st i).length = 2 * st.npartner.getD i 0 + 4) ∧
      (deserializeStore fresh (serializeStore st n).1 (serializeStore st n).2).first =
        st.first ∧
      (deserializeStore fresh (serializeStore st n).1 (serializeStore st n).2).maxpartner =
        st.maxpartner ∧
      ∀ i, i < n →
        (deserializeStore fresh (serializeStore st n).1 (serializeStore st n).2).npartner.getD
            i 0 = st.npartner.getD i 0 ∧
        (deserializeStore fresh (serializeStore st n).1 (serializeStore st n).2).partner.getD
            i [] = st.partner.getD i [] ∧
        (deserializeStore fresh (serializeStore st n).1 (serializeStore st n).2).r0.getD
            i [] = st.r0.getD i [] ∧
        (deserializeStore fresh (serializeStore st n).1 (serializeStore st n).2).vinter.getD
            i 0 = st.vinter.getD i 0 ∧
        (deserializeStore fresh (serializeStore st n).1 (serializeStore st n).2).wvolume.getD
            i 0 = st.wvolume.getD i 0 := by
  have hslot : ∀ i, i < n → (slotPairs st i).length = st.npartner.getD i 0 := by
    intro i hi
    simp only [slotPairs, List.length_zip, List.length_take, (hwf i hi).1, (hwf i hi).2,
      Nat.min_self]
  have hhdr := restoreAll_header (serializeStore st n).2 0 (restart fresh (serializeStore st n).1)
  constructor
  · intro i hi
    constructor
    · simp [pack_restart]
    · simp [pack_restart, pairsBody_length, hslot i hi]
  constructor
  · rw [deserializeStore, hhdr.1]
    rw [serializeStore, restart]
    cases hf : st.first with
    | true =>
      simp only [write_restart, hf, if_true, List.headD_cons]
      decide
    | false =>
      simp only [write_restart, hf]
      norm_num
      decide
  constructor
  · rw [deserializeStore, hhdr.2]
    rw [serializeStore, restart]
    simp only [write_restart, List.drop_one, List.tail_cons, List.headD_cons]
    rw [bufToInt_natCast]
    simp
  · intro i hi
    have hmain := restoreAll_pack st (List.range n) 0
      (restart fresh (serializeStore st n).1)
      (fun j hj => hwf j (List.mem_range.mp hj))
      (by rw [List.length_range, Nat.zero_add]; exact hl1)
      (by rw [List.length_range, Nat.zero_add]; exact hl2)
      (by rw [List.length_range, Nat.zero_add]; exact hl3)
      (by rw [List.length_range, Nat.zero_add]; exact hl4)
      (by rw [List.length_range, Nat.zero_add]; exact hl5)
      i (by rw [List.length_range]; exact hi)
    rw [getD_range n i hi] at hmain
    simp only [Nat.zero_add] at hmain
    exact hmain

/-- Witness for claim C5 at a concrete two-particle store. -/
theorem restart_serialize_roundtrip_witness :
    (∀ i, i < 2 → (pack_restart stWitnessRs i).headD 0 =
          ((2 * stWitnessRs.npartner.getD i 0 + 4 : Nat) : ℚ) ∧
        (pack_restart stWitnessRs i).length = 2 * stWitnessRs.npartner.getD i 0 + 4) ∧
      (deserializeStore freshWitnessRs (serializeStore stWitnessRs 2).1
          (serializeStore stWitnessRs 2).2).first = stWitnessRs.first ∧
      (deserializeStore freshWitnessRs (serializeStore stWitnessRs 2).1
          (serializeStore stWitnessRs 2).2).maxpartner = stWitnessRs.maxpartner ∧
      ∀ i, i < 2 →
        (deserializeStore freshWitnessRs (serializeStore stWitnessRs 2).1
            (serializeStore stWitnessRs 2).2).npartner.getD i 0 =
          stWitnessRs.npartner.getD i 0 ∧
        (deserializeStore freshWitnessRs (serializeStore stWitnessRs 2).1
            (serializeStore stWitnessRs 2).2).partner.getD i [] =
          stWitnessRs.partner.getD i [] ∧
        (deserializeStore freshWitnessRs (serializeStore stWitnessRs 2).1
            (serializeStore stWitnessRs 2).2).r0.getD i [] =
          stWitnessRs.r0.getD i [] ∧
        (deserializeStore freshWitnessRs (serializeStore stWitnessRs 2).1
            (serializeStore stWitnessRs 2).2).vinter.getD i 0 =
          stWitnessRs.vinter.getD i 0 ∧
        (deserializeStore freshWitnessRs (serializeStore stWitnessRs 2).1
            (serializeStore stWitnessRs 2).2).wvolume.getD i 0 =
          stWitnessRs.wvolume.getD i 0 :=
  restart_serialize_roundtrip stWitnessRs freshWitnessRs 2 (by decide)
    (by decide) (by decide) (by decide) (by decide) (by decide)

theorem foldl_set_getD_below (buf : List ℚ) :
    ∀ (L : List Nat) (w : List ℚ) (fi j : Nat), j < fi →
      (L.foldl (fun w2 k => w2.set (fi + k) (buf.getD k 0)) w).getD j 0 = w.getD j 0 := by
  intro L
  induction L with
  | nil => intro w fi j _; rfl
  | cons k L' ih =>
    intro w fi j hj
    simp only [List.foldl_cons]
    rw [ih _ fi j hj]
    exact getD_set_ne _ (fi + k) j _ _
      (Nat.ne_of_gt (Nat.lt_of_lt_of_le hj (Nat.le_add_right fi k)))

/-- Claim C10: ghost synchronization transmits exactly one scalar per
particle: the forward pack reads only `wvolume` of the listed particles
(stores agreeing there pack identically, and the per-atom size is 1), the
forward unpack writes only `wvolume` — `npartner`, `partner`, `r0` and
`vinter` of every particle are unchanged — and `wvolume` of every locally
owned slot (index below `firstIdx = nlocal`) is unchanged. -/
theorem ghost_sync_only_wvolume (st st2 : Store) (lst : List Nat)
    (n firstIdx nlocal : Nat) (buf : List ℚ) (hg : nlocal ≤ firstIdx) :
    ((∀ j, j ∈ lst → st.wvolume.getD j 0 = st2.wvolume.getD j 0) →
        pack_comm st lst = pack_comm st2 lst) ∧
      (unpack_comm st n firstIdx buf).npartner = st.npartner ∧
      (unpack_comm st n firstIdx buf).partner = st.partner ∧
      (unpack_comm st n firstIdx buf).r0 = st.r0 ∧
      (unpack_comm st n firstIdx buf).vinter = st.vinter ∧
      ∀ j, j < nlocal →
        (unpack_comm st n firstIdx buf).wvolume.getD j 0 = st.wvolume.getD j 0 := by
  refine ⟨?_, rfl, rfl, rfl, rfl, ?_⟩
  · intro hagree
    simp only [pack_comm, Prod.mk.injEq, and_true]
    exact List.map_congr_left hagree
  · intro j hj
    exact foldl_set_getD_below buf (List.range n) st.wvolume firstIdx j
      (Nat.lt_of_lt_of_le hj hg)

/-- Witness for claim C10 at a concrete store: two owned slots, one ghost
slot overwritten by the exchange. -/
theorem ghost_sync_only_wvolume_witness :
    ((∀ j, j ∈ [0] → stWitnessRs.wvolume.getD j 0 = stWitnessRs.wvolume.getD j 0) →
        pack_comm stWitnessRs [0] = pack_comm stWitnessRs [0]) ∧
      (unpack_comm stWitnessRs 1 2 [77]).npartner = stWitnessRs.npartner ∧
      (unpack_comm stWitnessRs 1 2 [77]).partner = stWitnessRs.partner ∧
      (unpack_comm stWitnessRs 1 2 [77]).r0 = stWitnessRs.r0 ∧
      (unpack_comm stWitnessRs 1 2 [77]).vinter = stWitnessRs.vinter ∧
      ∀ j, j < 2 →
        (unpack_comm stWitnessRs 1 2 [77]).wvolume.getD j 0 =
          stWitnessRs.wvolume.getD j 0 :=
  ghost_sync_only_wvolume stWitnessRs stWitnessRs [0] 1 2 2 [77] (by decide)

theorem foldl_popStep_first (inp : BuildInput) :
    ∀ (L : List (Nat × Nat)) (s : Store), (L.foldl (popStep inp) s).first = s.first := by
  intro L
  induction L with
  | nil => intro s; rfl
  | cons q L' ih =>
    intro s
    obtain ⟨i, j⟩ := q
    rw [List.foldl_cons, ih]
    by_cases h : bondQualifies inp i j <;> simp [popStep, h]

theorem foldl_popStep_maxpartner (inp : BuildInput) :
    ∀ (L : List (Nat × Nat)) (s : Store),
      (L.foldl (popStep inp) s).maxpartner = s.maxpartner := by
  intro L
  induction L with
  | nil => intro s; rfl
  | cons q L' ih =>
    intro s
    obtain ⟨i, j⟩ := q
    rw [List.foldl_cons, ih]
    by_cases h : bondQualifies inp i j <;> simp [popStep, h]

/-- Claim C7: invoking the build a second time on an already-built store is
a no-op: the build-once flag is cleared by the first successful build, and
any subsequent call returns the store unchanged (hence `npartner`,
`partner`, `r0`, `vinter`, `wvolume` and `maxpartner` are all unchanged). -/
theorem setup_build_once (inp inp2 : BuildInput) (maxall maxall2 : Nat) (st st2 : Store)
    (h : setupPartition inp maxall st = Except.ok st2) :
    st2.first = false ∧ setupPartition inp2 maxall2 st2 = Except.ok st2 := by
  by_cases hf : st.first = false
  · rw [setupPartition, if_pos hf] at h
    have hst : st = st2 := by injection h
    subst hst
    exact ⟨hf, by rw [setupPartition, if_pos hf]⟩
  · rw [setupPartition, if_neg hf] at h
    cases hc : checkDuplicates inp (populate inp maxall) with
    | error e => rw [hc] at h; cases h
    | ok u =>
      rw [hc] at h
      have hst : computeWvolumeStore inp (populate inp maxall) = st2 := by injection h
      have hfirst : st2.first = false := by
        rw [← hst]
        show (populate inp maxall).first = false
        rw [populate, foldl_popStep_first]
        rfl
      exact ⟨hfirst, by rw [setupPartition, if_pos hfirst]⟩

/-- Claim C3: in either pass, a candidate pair `(i, j)` produces a bond
exactly when `rsq ≤ cutsq[itype][jtype]`; in particular a pair exactly at
the cutoff boundary (`rsq = cutsq`) does produce a bond (the tag is
appended and the degree grows), because the test is inclusive. -/
theorem bond_created_iff_within_cutoff (inp : BuildInput) (st : Store) (i j : Nat)
    (h1 : i < st.npartner.length) (h2 : i < st.partner.length) :
    ((popStep inp st (i, j)).npartner.getD i 0 = st.npartner.getD i 0 + 1 ↔
        bondQualifies inp i j) ∧
      (distSq (getP inp.particles i).x (getP inp.particles j).x =
          inp.cutsq (getP inp.particles i).type (getP inp.particles j).type →
        (popStep inp st (i, j)).partner.getD i [] =
            st.partner.getD i [] ++ [(getP inp.particles j).tag] ∧
          (popStep inp st (i, j)).npartner.getD i 0 = st.npartner.getD i 0 + 1) := by
  by_cases hq : bondQualifies inp i j
  · have hstep : popStep inp st (i, j) =
        { st with
            partner := st.partner.set i
              (st.partner.getD i [] ++ [(getP inp.particles j).tag])
            r0 := st.r0.set i (st.r0.getD i [] ++
              [inp.sqrtQ (distSq (getP inp.particles i).x (getP inp.particles j).x)])
            npartner := st.npartner.set i (st.npartner.getD i 0 + 1)
            vinter := st.vinter.set i
              (st.vinter.getD i 0 + (getP inp.particles j).vfrac) } := by
      simp only [popStep]
      rw [if_pos hq]
    have hnp2 : (popStep inp st (i, j)).npartner.getD i 0 = st.npartner.getD i 0 + 1 := by
      rw [hstep]
      exact getD_set_self _ _ _ _ h1
    refine ⟨⟨fun _ => hq, fun _ => hnp2⟩, fun _ => ⟨?_, hnp2⟩⟩
    rw [hstep]
    exact getD_set_self _ _ _ _ h2
  · have hstep : popStep inp st (i, j) = st := by
      simp only [popStep]
      rw [if_neg hq]
    constructor
    · rw [hstep]
      constructor
      · intro habs
        exact absurd habs (Nat.ne_of_lt (Nat.lt_succ_self _))
      · intro hqq
        exact absurd hqq hq
    · intro heq
      exact absurd (le_of_eq heq) hq

/-- Witness for claim C7: a `setup` call on the concrete already-built
store succeeds and returns it unchanged, so its flag is clear and a
further call is the identity. -/
theorem setup_build_once_witness :
    stWBuilt.first = false ∧ setupPartition inpW 1 stWBuilt = Except.ok stWBuilt :=
  setup_build_once inpW inpW 1 1 stWBuilt stWBuilt rfl

/-- Witness for claim C3 at the exact cutoff boundary. -/
theorem bond_created_iff_within_cutoff_witness :
    ((popStep inpW3 stW0 (0, 1)).npartner.getD 0 0 = stW0.npartner.getD 0 0 + 1 ↔
        bondQualifies inpW3 0 1) ∧
      (distSq (getP inpW3.particles 0).x (getP inpW3.particles 1).x =
          inpW3.cutsq (getP inpW3.particles 0).type (getP inpW3.particles 1).type →
        (popStep inpW3 stW0 (0, 1)).partner.getD 0 [] =
            stW0.partner.getD 0 [] ++ [(getP inpW3.particles 1).tag] ∧
          (popStep inpW3 stW0 (0, 1)).npartner.getD 0 0 = stW0.npartner.getD 0 0 + 1) :=
  bond_created_iff_within_cutoff inpW3 stW0 0 1 (by decide) (by decide)

theorem wvolContrib_skip (inp : BuildInput) (x0i : Vec3) (itype : Nat)
    (t : Int) (rr : ℚ) (hskip : t = 0 ∨ inp.mapTag t = none) :
    wvolContrib inp x0i itype t rr = 0 := by
  cases hskip with
  | inl h0 => rw [wvolContrib, if_pos h0]
  | inr hnone =>
    rw [wvolContrib]
    by_cases h0 : t = 0
    · rw [if_pos h0]
    · rw [if_neg h0, hnone]

/-- Claim C9: in the weighted-volume computation, a bond slot whose partner
tag is 0 (tombstone) or whose tag cannot be resolved (`atom->map`
returning no particle) contributes nothing to `wvolume[i]` — removing it
from the slot list leaves the accumulated value unchanged — and the pass
modifies nothing but `wvolume`: `npartner`, `partner`, `r0` and `vinter`
are untouched (in particular the slot is not tombstoned), and the pass is
a total function that raises no error. -/
theorem wvolume_skips_dead_and_lost (inp : BuildInput) (st : Store) (x0i : Vec3)
    (itype : Nat) (l1 l2 : List (Int × ℚ)) (t : Int) (rr : ℚ) (acc : ℚ)
    (hskip : t = 0 ∨ inp.mapTag t = none) :
    wvolumeRow inp x0i itype (l1 ++ (t, rr) :: l2) acc =
        wvolumeRow inp x0i itype (l1 ++ l2) acc ∧
      (computeWvolumeStore inp st).npartner = st.npartner ∧
      (computeWvolumeStore inp st).partner = st.partner ∧
      (computeWvolumeStore inp st).r0 = st.r0 ∧
      (computeWvolumeStore inp st).vinter = st.vinter ∧
      (computeWvolumeStore inp st).first = st.first ∧
      (computeWvolumeStore inp st).maxpartner = st.maxpartner := by
  refine ⟨?_, rfl, rfl, rfl, rfl, rfl, rfl⟩
  rw [wvolumeRow, wvolumeRow, List.foldl_append, List.foldl_append, List.foldl_cons,
    wvolContrib_skip inp x0i itype t rr hskip, add_zero]

/-- Witness for claim C9: a tombstoned slot in the middle of a concrete
two-slot list contributes nothing. -/
theorem wvolume_skips_dead_and_lost_witness :
    wvolumeRow inpW (0, 0, 0) 1 ([(2, 1)] ++ (0, 5) :: [(1, 2)]) 0 =
        wvolumeRow inpW (0, 0, 0) 1 ([(2, 1)] ++ [(1, 2)]) 0 ∧
      (computeWvolumeStore inpW stWBuilt).npartner = stWBuilt.npartner ∧
      (computeWvolumeStore inpW stWBuilt).partner = stWBuilt.partner ∧
      (computeWvolumeStore inpW stWBuilt).r0 = stWBuilt.r0 ∧
      (computeWvolumeStore inpW stWBuilt).vinter = stWBuilt.vinter ∧
      (computeWvolumeStore inpW stWBuilt).first = stWBuilt.first ∧
      (computeWvolumeStore inpW stWBuilt).maxpartner = stWBuilt.maxpartner :=
  wvolume_skips_dead_and_lost inpW stWBuilt (0, 0, 0) 1 [(2, 1)] [(1, 2)] 0 5 0
    (Or.inl rfl)

/-- Claim C6: the horizon-proximity weight equals
`-r0/(2*halfLattice) + 1 + (delta - halfLattice)/(2*halfLattice)` when
`|r0 - delta| ≤ halfLattice` and 1.0 otherwise; consequently, under the
uniform (PMB) influence model, a particle with a single live resolvable
bond at `r0 = delta - 2*halfLattice` (outside the blend band) accumulates
`wvolume = rsq0 * vfrac(partner)`, while at `r0 = delta` the scale is
strictly below 1.0. -/
theorem pmb_contrib_arith (a b : ℚ) : 0 + 1 * a * b * 1 = a * b := by
  rw [zero_add, one_mul, mul_one]

theorem vfrac_scale_below_band (delta h : ℚ) (hpos : 0 < h) :
    vfrac_scale (delta - 2 * h) delta h = 1 := by
  have he : delta - 2 * h - delta = -(2 * h) := by
    rw [sub_right_comm, sub_self, zero_sub]
  have h2 : (0 : ℚ) < 2 * h := mul_pos two_pos hpos
  have hgt : h < |delta - 2 * h - delta| := by
    rw [he, abs_neg, abs_of_pos h2, two_mul]
    exact lt_add_of_pos_left h hpos
  rw [vfrac_scale, if_neg (not_le.mpr hgt)]

theorem vfrac_scale_at_delta (delta h : ℚ) (hpos : 0 < h) :
    vfrac_scale delta delta h = 1 / 2 := by
  rw [vfrac_scale, if_pos (by rw [sub_self, abs_zero]; exact le_of_lt hpos),
    div_mul_eq_mul_div, neg_one_mul, add_comm (1 : ℚ), ← add_assoc, div_add_div_same,
    neg_add_eq_sub, sub_right_comm, sub_self, zero_sub, neg_div, mul_comm (2 : ℚ) h,
    ← div_div, div_self (ne_of_gt hpos)]
  norm_num

/-- Claim C6: the horizon-proximity weight equals
`-r0/(2*halfLattice) + 1 + (delta - halfLattice)/(2*halfLattice)` when
`|r0 - delta| ≤ halfLattice` and 1.0 otherwise; consequently, under the
uniform (PMB) influence model, a particle with a single live resolvable
bond at `r0 = delta - 2*halfLattice` (outside the blend band) accumulates
`wvolume = rsq0 * vfrac(partner)`, while at `r0 = delta` the scale is
strictly below 1.0. -/
theorem wvolume_blend_scale (inp : BuildInput) (x0i : Vec3) (itype : Nat)
    (t : Int) (jdx : Nat) (r0v delta h : ℚ)
    (hpos : 0 < (1 / 2 : ℚ) * inp.xlattice)
    (hstyle : inp.style = PairStyle.pmb)
    (ht : t ≠ 0) (hmap : inp.mapTag t = some jdx) :
    (|r0v - delta| ≤ h → vfrac_scale r0v delta h =
        -r0v / (2 * h) + 1 + (delta - h) / (2 * h)) ∧
      (¬|r0v - delta| ≤ h → vfrac_scale r0v delta h = 1) ∧
      wvolumeRow inp x0i itype
          [(t, inp.sqrtQ (inp.cutsq itype (getP inp.particles jdx).type) -
            2 * ((1 / 2 : ℚ) * inp.xlattice))] 0 =
        distSq x0i (getP inp.particles jdx).x0 * (getP inp.particles jdx).vfrac ∧
      (0 < h → vfrac_scale delta delta h < 1) := by
  refine ⟨?_, ?_, ?_, ?_⟩
  · intro hband
    rw [vfrac_scale, if_pos hband, div_mul_eq_mul_div, neg_one_mul, ← add_assoc]
  · intro hout
    rw [vfrac_scale, if_neg hout]
  · rw [wvolumeRow, List.foldl_cons, List.foldl_nil, wvolContrib, if_neg ht, hmap]
    rw [hstyle]
    simp only []
    rw [vfrac_scale_below_band _ _ hpos]
    exact pmb_contrib_arith (distSq x0i (getP inp.particles jdx).x0)
      (getP inp.particles jdx).vfrac
  · intro hh
    rw [vfrac_scale_at_delta delta h hh]
    norm_num

/-- Witness for claim C6 on the concrete two-particle input: one live
resolvable bond at `r0 = delta - 2*halfLattice`. -/
theorem wvolume_blend_scale_witness :
    (|(5 : ℚ) - 3| ≤ 1 → vfrac_scale 5 3 1 = -5 / (2 * 1) + 1 + ((3 : ℚ) - 1) / (2 * 1)) ∧
      (¬|(5 : ℚ) - 3| ≤ 1 → vfrac_scale 5 3 1 = 1) ∧
      wvolumeRow inpW (0, 0, 0) 1
          [(2, inpW.sqrtQ (inpW.cutsq 1 (getP inpW.particles 1).type) -
            2 * ((1 / 2 : ℚ) * inpW.xlattice))] 0 =
        distSq (0, 0, 0) (getP inpW.particles 1).x0 * (getP inpW.particles 1).vfrac ∧
      ((0 : ℚ) < 1 → vfrac_scale 3 3 1 < 1) :=
  wvolume_blend_scale inpW (0, 0, 0) 1 2 1 5 3 1 (by norm_num [inpW]) rfl
    (by decide) (by norm_num [inpW])

theorem hasDupRow_iff (l : List Int) :
    hasDupRow l = true ↔
      ∃ jj kk, jj < kk ∧ kk < l.length ∧ l.getD jj 0 = l.getD kk 0 := by
  induction l with
  | nil =>
    simp [hasDupRow]
  | cons a tl ih =>
    rw [hasDupRow, Bool.or_eq_true, List.any_eq_true, ih]
    constructor
    · rintro (⟨b, hbmem, hbeq⟩ | ⟨jj, kk, hjk, hkk, heq⟩)
      · have hbeq2 : b = a := by simpa using hbeq
        obtain ⟨m, hm, hget⟩ := List.getElem_of_mem hbmem
        refine ⟨0, m + 1, Nat.succ_pos m, Nat.succ_lt_succ hm, ?_⟩
        rw [List.getD_cons_zero, List.getD_cons_succ, List.getD_eq_getElem _ _ hm,
          hget, hbeq2]
      · exact ⟨jj + 1, kk + 1, Nat.succ_lt_succ hjk, Nat.succ_lt_succ hkk, heq⟩
    · rintro ⟨jj, kk, hjk, hkk, heq⟩
      cases jj with
      | zero =>
        left
        cases kk with
        | zero => exact absurd hjk (lt_irrefl 0)
        | succ m =>
          have hm : m < tl.length := Nat.lt_of_succ_lt_succ hkk
          refine ⟨tl.getD m 0, ?_, by simpa using heq.symm⟩
          rw [List.getD_eq_getElem _ _ hm]
          exact List.getElem_mem hm
      | succ j2 =>
        right
        cases kk with
        | zero => exact absurd hjk (Nat.not_lt_zero _)
        | succ k2 =>
          exact ⟨j2, k2, Nat.lt_of_succ_lt_succ hjk, Nat.lt_of_succ_lt_succ hkk, heq⟩

/-- Claim C4: the duplicate-bond check runs if and only if at least one
domain axis is periodic — with no periodic axis it is skipped entirely
and the builder raises no error — and it aborts with `dupErrMsg` exactly
when some local particle has two distinct bond slots `jj < kk` holding
the same partner tag. -/
theorem duplicate_guard_iff (inp : BuildInput) (st : Store) :
    ((inp.xperiodic || inp.yperiodic || inp.zperiodic) = false →
        checkDuplicates inp st = Except.ok ()) ∧
      (checkDuplicates inp st = Except.error dupErrMsg ↔
        (inp.xperiodic || inp.yperiodic || inp.zperiodic) = true ∧
        ∃ i, i < inp.nlocal ∧ ∃ jj kk, jj < kk ∧
          kk < ((st.partner.getD i []).take (st.npartner.getD i 0)).length ∧
          ((st.partner.getD i []).take (st.npartner.getD i 0)).getD jj 0 =
            ((st.partner.getD i []).take (st.npartner.getD i 0)).getD kk 0) := by
  constructor
  · intro hper
    rw [checkDuplicates, if_neg (by simp [hper])]
  · rw [checkDuplicates]
    by_cases hper : (inp.xperiodic || inp.yperiodic || inp.zperiodic) = true
    · rw [if_pos hper]
      by_cases hany : ((List.range inp.nlocal).any
          (fun i => hasDupRow
            ((st.partner.getD i []).take (st.npartner.getD i 0)))) = true
      · rw [if_pos hany]
        constructor
        · intro _
          refine ⟨hper, ?_⟩
          rw [List.any_eq_true] at hany
          obtain ⟨i, hmem, hdup⟩ := hany
          exact ⟨i, List.mem_range.mp hmem, (hasDupRow_iff _).mp hdup⟩
        · intro _
          rfl
      · rw [if_neg hany]
        constructor
        · intro habs
          cases habs
        · rintro ⟨_, i, hi, jj, kk, hjk, hkk, heq⟩
          exact absurd (List.any_eq_true.mpr
            ⟨i, List.mem_range.mpr hi, (hasDupRow_iff _).mpr ⟨jj, kk, hjk, hkk, heq⟩⟩) hany
    · rw [if_neg hper]
      constructor
      · intro habs
        cases habs
      · rintro ⟨h1, _⟩
        exact absurd h1 hper

/-- Witness for claim C4: with no periodic axis the check is skipped, and
under a periodic axis a doubled partner tag aborts with `dupErrMsg`. -/
theorem duplicate_guard_iff_witness :
    checkDuplicates inpW stWBuilt = Except.ok () ∧
      checkDuplicates inpPer stDup = Except.error dupErrMsg :=
  ⟨(duplicate_guard_iff inpW stWBuilt).1 (by decide),
    (duplicate_guard_iff inpPer stDup).2.mpr
      ⟨by decide, 0, by decide, 0, 1, by decide, by decide, by decide⟩⟩

theorem popStep_npartner (inp : BuildInput) (st : Store) (pr : Nat × Nat) :
    (popStep inp st pr).npartner = sizingStep inp st.npartner pr := by
  obtain ⟨i, j⟩ := pr
  by_cases h : bondQualifies inp i j <;> simp [popStep, sizingStep, h]

theorem foldl_popStep_npartner (inp : BuildInput) :
    ∀ (L : List (Nat × Nat)) (s : Store),
      (L.foldl (popStep inp) s).npartner = L.foldl (sizingStep inp) s.npartner := by
  intro L
  induction L with
  | nil => intro s; rfl
  | cons q L' ih =>
    intro s
    rw [List.foldl_cons, List.foldl_cons, ih, popStep_npartner]

theorem le_foldl_max_init : ∀ (l : List Nat) (a : Nat), a ≤ l.foldl max a := by
  intro l
  induction l with
  | nil => intro a; exact Nat.le_refl a
  | cons b l' ih =>
    intro a
    rw [List.foldl_cons]
    exact le_trans (Nat.le_max_left a b) (ih (max a b))

theorem le_foldl_max_mem : ∀ (l : List Nat) (a x : Nat), x ∈ l → x ≤ l.foldl max a := by
  intro l
  induction l with
  | nil => intro a x hx; exact absurd hx (List.not_mem_nil x)
  | cons b l' ih =>
    intro a x hx
    rw [List.foldl_cons]
    rcases List.mem_cons.mp hx with h | h
    · subst h
      exact le_trans (Nat.le_max_right a x) (le_foldl_max_init l' (max a x))
    · exact ih (max a b) x h

theorem getD_mem {α : Type} (l : List α) (i : Nat) (d : α) (h : i < l.length) :
    l.getD i d ∈ l := by
  rw [List.getD_eq_getElem _ _ h]
  exact List.getElem_mem h

theorem sizingStep_length (inp : BuildInput) (c : List Nat) (pr : Nat × Nat) :
    (sizingStep inp c pr).length = c.length := by
  obtain ⟨i, j⟩ := pr
  by_cases h : bondQualifies inp i j <;> simp [sizingStep, h]

theorem foldl_sizingStep_length (inp : BuildInput) :
    ∀ (L : List (Nat × Nat)) (c : List Nat),
      (L.foldl (sizingStep inp) c).length = c.length := by
  intro L
  induction L with
  | nil => intro c; rfl
  | cons q L' ih =>
    intro c
    rw [List.foldl_cons, ih, sizingStep_length]

theorem getD_set_ge {α : Type} (l : List α) (j : Nat) (a d : α)
    (h : l.length ≤ j) : (l.set j a).getD j d = l.getD j d := by
  rw [List.getD_eq_default _ _ (by simpa using h), List.getD_eq_default _ _ h]

theorem sizingStep_getD_mono (inp : BuildInput) (c : List Nat) (q : Nat × Nat)
    (i : Nat) : c.getD i 0 ≤ (sizingStep inp c q).getD i 0 := by
  obtain ⟨a, b⟩ := q
  by_cases hq : bondQualifies inp a b
  · rw [sizingStep, if_pos hq]
    by_cases hai : a = i
    · subst hai
      by_cases hlt : a < c.length
      · rw [getD_set_self _ _ _ _ hlt]
        exact Nat.le_succ _
      · rw [getD_set_ge _ _ _ _ (Nat.le_of_not_lt hlt)]
    · rw [getD_set_ne _ _ _ _ _ hai]
  · rw [sizingStep, if_neg hq]

theorem foldl_sizingStep_getD_mono (inp : BuildInput) :
    ∀ (L : List (Nat × Nat)) (c : List Nat) (i : Nat),
      c.getD i 0 ≤ (L.foldl (sizingStep inp) c).getD i 0 := by
  intro L
  induction L with
  | nil => intro c i; exact Nat.le_refl _
  | cons q L' ih =>
    intro c i
    rw [List.foldl_cons]
    exact le_trans (sizingStep_getD_mono inp c q i) (ih _ i)

theorem mapM_ok_forall₂ {α β : Type} {f : α → Except String β} :
    ∀ (l : List α) (l2 : List β), l.mapM f = Except.ok l2 →
      List.Forall₂ (fun a b => f a = Except.ok b) l l2 := by
  intro l
  induction l with
  | nil =>
    intro l2 h
    simp only [List.mapM_nil] at h
    have : l2 = [] := by
      have h2 : (Except.ok [] : Except String (List β)) = Except.ok l2 := h
      injection h2 with h3
      exact h3.symm
    subst this
    exact List.Forall₂.nil
  | cons a l' ih =>
    intro l2 h
    rw [List.mapM_cons] at h
    cases hfa : f a with
    | error e =>
      rw [hfa] at h
      have h2 : (Except.error e : Except String (List β)) = Except.ok l2 := h
      cases h2
    | ok b =>
      rw [hfa] at h
      have h2 : (l'.mapM f >>= fun bs => pure (b :: bs)) = Except.ok l2 := h
      cases hrest : l'.mapM f with
      | error e =>
        rw [hrest] at h2
        have h3 : (Except.error e : Except String (List β)) = Except.ok l2 := h2
        cases h3
      | ok bs =>
        rw [hrest] at h2
        have h3 : (Except.ok (b :: bs) : Except String (List β)) = Except.ok l2 := h2
        have h4 : b :: bs = l2 := by injection h3
        subst h4
        exact List.Forall₂.cons hfa (ih bs hrest)

theorem forall₂_mem_right {α β : Type} {R : α → β → Prop} :
    ∀ {l : List α} {l2 : List β}, List.Forall₂ R l l2 →
      ∀ b, b ∈ l2 → ∃ a, a ∈ l ∧ R a b := by
  intro l l2 h
  induction h with
  | nil => intro b hb; exact absurd hb (List.not_mem_nil b)
  | cons hr _ ih =>
    intro b hb
    rcases List.mem_cons.mp hb with h1 | h1
    · subst h1
      exact ⟨_, List.mem_cons_self _ _, hr⟩
    · obtain ⟨a, ha, har⟩ := ih b h1
      exact ⟨a, List.mem_cons_of_mem _ ha, har⟩

theorem forall₂_map_eq {α β γ : Type} {R : α → β → Prop} (g : β → γ) (f : α → γ) :
    ∀ {l : List α} {l2 : List β}, List.Forall₂ R l l2 →
      (∀ a b, a ∈ l → R a b → g b = f a) → l2.map g = l.map f := by
  intro l l2 h
  induction h with
  | nil => intro _; rfl
  | cons hr hrest ih =>
    intro hcong
    rw [List.map_cons, List.map_cons]
    rw [hcong _ _ (List.mem_cons_self _ _) hr]
    rw [ih (fun a b ha hab => hcong a b (List.mem_cons_of_mem _ ha) hab)]

theorem setupPartition_ok_built (inp : BuildInput) (maxall : Nat) (st s2 : Store)
    (hf : st.first = true) (h : setupPartition inp maxall st = Except.ok s2) :
    s2.npartner = sizingFrom inp (List.replicate inp.nlocal 0) ∧
      s2.maxpartner = maxall := by
  rw [setupPartition, if_neg (by simp [hf])] at h
  cases hc : checkDuplicates inp (populate inp maxall) with
  | error e => rw [hc] at h; cases h
  | ok u =>
    rw [hc] at h
    have hs : computeWvolumeStore inp (populate inp maxall) = s2 := by injection h
    constructor
    · rw [← hs]
      show (populate inp maxall).npartner = sizingFrom inp (List.replicate inp.nlocal 0)
      rw [populate, foldl_popStep_npartner]
      rfl
    · rw [← hs]
      show (populate inp maxall).maxpartner = maxall
      rw [populate, foldl_popStep_maxpartner]
      rfl

set_option maxHeartbeats 1000000 in
/-- Claim C1: after the build completes across all partitions (every store
fresh, with the constructor-zeroed counts), every local particle's
`npartner[i]` is at most `maxpartner`; every partition's `maxpartner`
equals the all-reduced value of the synchronization point between the
sizing and population passes; and that value equals the maximum
per-particle bond count taken over all partitions. -/
theorem build_degree_bound (prs : List (BuildInput × Store)) (sts2 : List Store)
    (hall : setupAll prs = Except.ok sts2)
    (hfirst : ∀ pr, pr ∈ prs → pr.2.first = true)
    (hzero : ∀ pr, pr ∈ prs →
      pr.2.npartner.take pr.1.nlocal = List.replicate pr.1.nlocal 0) :
    (∀ s2, s2 ∈ sts2 → ∀ c, c ∈ s2.npartner → c ≤ s2.maxpartner) ∧
      (∀ s2, s2 ∈ sts2 → s2.maxpartner = globalMax prs) ∧
      (sts2.map maxDegree).foldl max 0 = globalMax prs := by
  have hf2 := mapM_ok_forall₂ prs sts2 hall
  have hperm : ∀ pr s2, pr ∈ prs →
      setupPartition pr.1 (globalMax prs) pr.2 = Except.ok s2 →
      s2.npartner = localSized pr.1 pr.2 ∧ s2.maxpartner = globalMax prs := by
    intro pr s2 hpr hok
    have hbuilt := setupPartition_ok_built pr.1 (globalMax prs) pr.2 s2
      (hfirst pr hpr) hok
    refine ⟨?_, hbuilt.2⟩
    rw [hbuilt.1, localSized, hzero pr hpr]
  have hmax : ∀ s2, s2 ∈ sts2 → s2.maxpartner = globalMax prs := by
    intro s2 hs2
    obtain ⟨pr, hpr, hok⟩ := forall₂_mem_right hf2 s2 hs2
    exact (hperm pr s2 hpr hok).2
  refine ⟨?_, hmax, ?_⟩
  · intro s2 hs2 c hc
    obtain ⟨pr, hpr, hok⟩ := forall₂_mem_right hf2 s2 hs2
    have hnp := (hperm pr s2 hpr hok).1
    rw [hnp] at hc
    have h1 : c ≤ localMax pr.1 pr.2 := le_foldl_max_mem _ 0 c hc
    have h2 : localMax pr.1 pr.2 ≤ globalMax prs :=
      le_foldl_max_mem _ 0 _
        (List.mem_map.mpr ⟨pr, hpr, rfl⟩)
    rw [(hperm pr s2 hpr hok).2]
    exact le_trans h1 h2
  · have hmapeq : sts2.map maxDegree =
        prs.map (fun pr => localMax pr.1 pr.2) := by
      refine forall₂_map_eq maxDegree (fun pr => localMax pr.1 pr.2) hf2 ?_
      intro pr s2 hpr hok
      rw [maxDegree, (hperm pr s2 hpr hok).1]
      rfl
    rw [hmapeq]
    rfl

/-- Witness for claim C1: a concrete one-partition build from the fresh
zero-count store, run end to end through `setupAll`. -/
theorem build_degree_bound_witness :
    (∀ s2, s2 ∈ [stEBuilt] → ∀ c, c ∈ s2.npartner → c ≤ s2.maxpartner) ∧
      (∀ s2, s2 ∈ [stEBuilt] → s2.maxpartner = globalMax [(inpE, stW0)]) ∧
      ([stEBuilt].map maxDegree).foldl max 0 = globalMax [(inpE, stW0)] :=
  build_degree_bound [(inpE, stW0)] [stEBuilt] rfl (by decide) (by decide)

/-- Claim C8: during the population pass run with the all-reduced bound,
every write `partner[i][npartner[i]]` (equivalently `r0[i][npartner[i]]`)
happens at an index strictly below `maxpartner`: at any point of the
candidate scan where a qualifying pair `(i, j)` is processed, the current
`npartner[i]` — the index about to be written — is strictly below the
all-reduced bound, because the sizing pass scanned the same candidates
with the same inclusive test and the bound dominates every partition's
final count. -/
theorem population_write_below_bound (prs : List (BuildInput × Store))
    (inp : BuildInput) (st : Store) (hmem : (inp, st) ∈ prs)
    (hzero : st.npartner.take inp.nlocal = List.replicate inp.nlocal 0)
    (hwfn : ∀ q, q ∈ scanPairs inp.neigh → q.1 < inp.nlocal)
    (L1 L2 : List (Nat × Nat)) (ij : Nat × Nat)
    (hsplit : scanPairs inp.neigh = L1 ++ ij :: L2)
    (hq : bondQualifies inp ij.1 ij.2) :
    (L1.foldl (popStep inp) (popInit inp (globalMax prs))).npartner.getD ij.1 0 <
      globalMax prs := by
  obtain ⟨i, j⟩ := ij
  have hcounts : (L1.foldl (popStep inp) (popInit inp (globalMax prs))).npartner =
      L1.foldl (sizingStep inp) (List.replicate inp.nlocal 0) := by
    rw [foldl_popStep_npartner]
    rfl
  have hi : i < inp.nlocal := by
    have hm : (i, j) ∈ scanPairs inp.neigh := by
      rw [hsplit]
      exact List.mem_append.mpr (Or.inr (List.mem_cons_self _ _))
    exact hwfn (i, j) hm
  have hlen1 : (L1.foldl (sizingStep inp) (List.replicate inp.nlocal 0)).length =
      inp.nlocal := by
    rw [foldl_sizingStep_length]
    exact List.length_replicate _ _
  have hstep : (sizingStep inp
        (L1.foldl (sizingStep inp) (List.replicate inp.nlocal 0)) (i, j)).getD i 0 =
      (L1.foldl (sizingStep inp) (List.replicate inp.nlocal 0)).getD i 0 + 1 := by
    rw [sizingStep, if_pos hq]
    exact getD_set_self _ _ _ _ (by rw [hlen1]; exact hi)
  have hfull : sizingFrom inp (List.replicate inp.nlocal 0) =
      L2.foldl (sizingStep inp)
        (sizingStep inp (L1.foldl (sizingStep inp) (List.replicate inp.nlocal 0)) (i, j)) := by
    rw [sizingFrom, hsplit, List.foldl_append, List.foldl_cons]
  have hmono : (sizingStep inp
        (L1.foldl (sizingStep inp) (List.replicate inp.nlocal 0)) (i, j)).getD i 0 ≤
      (sizingFrom inp (List.replicate inp.nlocal 0)).getD i 0 := by
    rw [hfull]
    exact foldl_sizingStep_getD_mono inp L2 _ i
  have hfulllen : (sizingFrom inp (List.replicate inp.nlocal 0)).length = inp.nlocal := by
    rw [sizingFrom, foldl_sizingStep_length]
    exact List.length_replicate _ _
  have hloc : (sizingFrom inp (List.replicate inp.nlocal 0)).getD i 0 ≤
      localMax inp st := by
    have hmem2 : (sizingFrom inp (List.replicate inp.nlocal 0)).getD i 0 ∈
        sizingFrom inp (List.replicate inp.nlocal 0) :=
      getD_mem _ _ _ (by rw [hfulllen]; exact hi)
    have : localSized inp st = sizingFrom inp (List.replicate inp.nlocal 0) := by
      rw [localSized, hzero]
    rw [localMax, this]
    exact le_foldl_max_mem _ 0 _ hmem2
  have hglob : localMax inp st ≤ globalMax prs :=
    le_foldl_max_mem _ 0 _ (List.mem_map.mpr ⟨(inp, st), hmem, rfl⟩)
  rw [hcounts]
  show (L1.foldl (sizingStep inp) (List.replicate inp.nlocal 0)).getD i 0 <
    globalMax prs
  have hlt : (L1.foldl (sizingStep inp) (List.replicate inp.nlocal 0)).getD i 0 <
      (sizingStep inp
        (L1.foldl (sizingStep inp) (List.replicate inp.nlocal 0)) (i, j)).getD i 0 := by
    rw [hstep]
    exact Nat.lt_succ_self _
  exact Nat.lt_of_lt_of_le hlt (le_trans hmono (le_trans hloc hglob))

/-- Witness for claim C8: the first qualifying write of the concrete
two-particle build has index 0, strictly below the all-reduced bound. -/
theorem population_write_below_bound_witness :
    (([] : List (Nat × Nat)).foldl (popStep inpW)
        (popInit inpW (globalMax [(inpW, stW0)]))).npartner.getD 0 0 <
      globalMax [(inpW, stW0)] :=
  population_write_below_bound [(inpW, stW0)] inpW stW0 (List.mem_singleton.mpr rfl)
    (by decide) (by decide) [] [(1, 0)] (0, 1) rfl
    (by
      show distSq ((0 : ℚ), (0 : ℚ), (0 : ℚ)) ((1 : ℚ), (0 : ℚ), (0 : ℚ)) ≤ (4 : ℚ)
      rw [distSq]
      norm_num)
